import Mathlib

/-!
A shallow embedding of the api-linter rule-engine fragments found in this
repository: the diagnostic model (`Problem`), the two concrete rules
core::25146::object-values (src/rules/aip25146/object_values.go) and
core::126::unspecified (the aip0126 source file), the shared lint helpers of
rules/internal/utils/common_lints.go, and spec-level models of rule identity,
the registry, suppression directives and the traversal engine (the lint
package itself is not among the provided sources, so those parts are
modelled from the specification).

Go conventions used throughout the translation: a Go function returning
`error` becomes a Lean function returning `Option LintErr` (`none` = nil);
a Go function returning `(T, error)` becomes `Except LintErr T`; a slice
that may be nil becomes a `List`; a pointer that may be nil becomes an
`Option`; Go string formatting is spelled out with `++`.
-/

/-- A message type referenced by a field, as observed through the
protoreflect accessors GetName and GetFullyQualifiedName. -/
structure MessageType where
  typeName : String
  fullyQualifiedName : String
deriving DecidableEq

/-- Protobuf field type tags (the subset that the embedded lints inspect).
builder.FieldTypeString().GetType() is `ProtoType.string`, and
builder.FieldTypeBool().GetType() is `ProtoType.bool`. -/
inductive ProtoType where
  | string
  | bool
  | message
  | enum
  | int32
  | int64
  | double
deriving DecidableEq

/-- The map-entry value field returned by GetMapValueType; the embedded
rules only observe its GetMessageType (nil when the value type is not a
message). -/
structure ValueField where
  messageType : Option MessageType
deriving DecidableEq

/-- protoreflect desc.FieldDescriptor, restricted to the observations the
embedded code makes of it. `fileIsCommonProto` records the boolean outcome
of utils.IsCommonProto(f.GetFile()) (that helper is defined outside the
provided sources, so only its result is modelled); `fieldBehavior` records
the google.api.field_behavior values attached to the field, as observed by
utils.GetFieldBehavior; `mapValueType` is nil (none) exactly when the field
is not a map field. -/
structure FieldDescriptor where
  fieldName : String
  type : ProtoType
  repeated : Bool
  messageType : Option MessageType
  mapValueType : Option ValueField
  fieldBehavior : List String
  fileIsCommonProto : Bool
deriving DecidableEq

/-- protoreflect desc.MessageDescriptor: a name and the fields searched by
FindFieldByName. -/
structure MessageDescriptor where
  messageName : String
  fields : List FieldDescriptor
deriving DecidableEq

/-- protoreflect FindFieldByName: first field with the given name, nil
(none) when absent. -/
def MessageDescriptor.FindFieldByName (m : MessageDescriptor) (field : String) :
    Option FieldDescriptor :=
  m.fields.find? (fun f => f.fieldName == field)

/-- The enclosing enum of an enum value, as observed through GetEnum().GetName(). -/
structure EnumDescr where
  enumName : String
deriving DecidableEq

/-- protoreflect desc.EnumValueDescriptor: name, numeric value and enclosing
enum. -/
structure EnumValueDescriptor where
  valueName : String
  number : Int
  enum : EnumDescr
deriving DecidableEq

/-- One google.api.http rule of a method, as observed by the embedded lints:
its Body and its Method (HTTP verb). -/
structure HTTPRule where
  body : String
  method : String
deriving DecidableEq

/-- protoreflect desc.MethodDescriptor together with the HTTP rules that
utils.GetHTTPRules extracts from it (that extractor is defined outside the
provided sources, so its result is modelled as a stored observation). -/
structure MethodDescriptor where
  methodName : String
  httpRules : List HTTPRule
deriving DecidableEq

/-- utils.GetHTTPRules. -/
def GetHTTPRules (m : MethodDescriptor) : List HTTPRule :=
  m.httpRules

/-- The offending declaration carried by a Problem (Go: desc.Descriptor). -/
inductive Descriptor where
  | field (f : FieldDescriptor)
  | message (m : MessageDescriptor)
  | enumValue (v : EnumValueDescriptor)
  | method (m : MethodDescriptor)
deriving DecidableEq

/-- The source location carried by a Problem, one constructor per
locations.* helper used by the embedded code. -/
inductive Location where
  | fieldType (f : FieldDescriptor)
  | descriptorName (d : Descriptor)
  | methodHTTPRule (m : MethodDescriptor)
  | methodRequestType (m : MethodDescriptor)
  | methodResponseType (m : MethodDescriptor)
deriving DecidableEq

/-- lint.Problem: message, optional suggestion (Go zero value "" when
unset), offending descriptor and optional location (nil when unset). -/
structure Problem where
  message : String
  suggestion : String
  descriptor : Descriptor
  location : Option Location
deriving DecidableEq

/-- Go fmt's %q applied to the plain strings produced by these lints:
wraps the string in double quotes. -/
def goQuote (s : String) : String :=
  "\"" ++ s ++ "\""

/-- The concrete utils.lintErr value behind the utils.LintErr interface:
the wrapped problems and the Error() message. -/
structure LintErr where
  problems : List Problem
  msg : String
deriving DecidableEq

/-- utils.NewLintErr: wraps the problems, joining their quoted messages
with ", " for Error(). -/
def NewLintErr (problems : List Problem) : LintErr :=
  { problems := problems,
    msg := String.intercalate ", " (problems.map (fun p => goQuote p.message)) }

/-- lint.RuleName as the spec describes it: an immutable triple of
namespace, numeric id and short kebab-case name. -/
structure RuleName where
  nspace : String
  aip : Nat
  shortName : String
deriving DecidableEq

/-- The textual form of a RuleName: the three components joined by the
fixed separator "::". -/
def RuleName.toStr (r : RuleName) : String :=
  r.nspace ++ "::" ++ toString r.aip ++ "::" ++ r.shortName

/-- Modelled from the spec: lint.NewRuleName (the lint package is not among
the provided sources) builds the hierarchical name core::[aip]::[short-name]
for a core rule. -/
def NewRuleName (aip : Nat) (name : String) : RuleName :=
  { nspace := "core", aip := aip, shortName := name }

/-- lint.FieldRule, restricted to the attributes the claims touch. The
check function returns `Option (List Problem)`: `none` models a Go run-time
failure (nil-pointer dereference) inside the check body, `some ps` a normal
return of the slice `ps`. -/
structure FieldRule where
  Name : RuleName
  OnlyIf : FieldDescriptor → Bool
  LintField : FieldDescriptor → Option (List Problem)

/-- lint.EnumValueRule, restricted to the attributes the claims touch. -/
structure EnumValueRule where
  Name : RuleName
  OnlyIf : EnumValueDescriptor → Bool
  LintEnumValue : EnumValueDescriptor → List Problem

/-- The core::25146::object-values rule of
src/rules/aip25146/object_values.go. OnlyIf requires a non-common-proto
file and a non-nil map value type; LintField evaluates
f.GetMapValueType().GetMessageType(), which dereferences a nil descriptor
(modelled as `none`) when GetMapValueType() is nil. -/
def objectValues : FieldRule :=
  { Name := NewRuleName 25146 "object-values",
    OnlyIf := fun f => !f.fileIsCommonProto && f.mapValueType.isSome,
    LintField := fun f =>
      match f.mapValueType with
      | none => none
      | some vt =>
          if vt.messageType.isSome then
            some [{ message := "Avoid using objects as map values.",
                    suggestion := "",
                    descriptor := Descriptor.field f,
                    location := some (Location.fieldType f) }]
          else
            some [] }

/-- Modelled from the spec: the dispatch engine (lint package, not among the
provided sources) invokes a field rule by checking suppression, then the
OnlyIf guard, then LintField; a suppressed or non-applicable rule
contributes no problems. -/
def runFieldRule (r : FieldRule) (suppressed : Bool) (f : FieldDescriptor) :
    Option (List Problem) :=
  if suppressed then some []
  else if r.OnlyIf f then r.LintField f
  else some []

/-- aip0126.isFirstEnumValue: proto3 requires the first enum value to have
numeric value 0. -/
def isFirstEnumValue (v : EnumValueDescriptor) : Bool :=
  v.number == 0

/-- The delimiter test of the go-strcase dependency: '-', '_' or a space. -/
def isDelimiterCh (c : Char) : Bool :=
  c == '-' || c == '_' || c.isWhitespace

/-- One pass of go-strcase's delimiterCase loop with delimiter '_' and
lower-casing: each character is processed knowing its predecessor and (for
the underscore-insertion rule on upper-case runs) its successor. -/
def snakeAux (prev : Option Char) : List Char → List Char
  | [] => []
  | [c] =>
      (if c.isUpper && (prev.map Char.isLower).getD false then ['_'] else [])
        ++ [c.toLower]
  | c :: c2 :: rest =>
      (if isDelimiterCh c then
        (if (prev.map isDelimiterCh).getD false then [] else ['_'])
      else if c.isUpper then
        (if (prev.map Char.isLower).getD false
            || ((prev.map Char.isUpper).getD false && c2.isLower) then ['_']
         else []) ++ [c.toLower]
      else [c.toLower])
        ++ snakeAux (some c) (c2 :: rest)

/-- strings.TrimSpace over the character list: drops leading and trailing
whitespace. -/
def trimSpaceChars (cs : List Char) : List Char :=
  ((cs.dropWhile Char.isWhitespace).reverse.dropWhile Char.isWhitespace).reverse

/-- Modelled from the go-strcase dependency (stoewer/go-strcase), whose
source is not part of this repository: SnakeCase trims the string and
converts it to lower snake_case. -/
def SnakeCase (s : String) : String :=
  String.mk (snakeAux none (trimSpaceChars s.data))

/-- strings.ToUpper as the rule applies it: upper-cases every character
(spelled out over the character list so that kernel evaluation works). -/
def goToUpper (s : String) : String :=
  String.mk (s.data.map Char.toUpper)

/-- The core::126::unspecified rule of the aip0126 source file: the first
enum value (numeric value 0) must be named after the enum in upper snake
case with an "_UNSPECIFIED" suffix. -/
def unspecified : EnumValueRule :=
  { Name := NewRuleName 126 "unspecified",
    OnlyIf := isFirstEnumValue,
    LintEnumValue := fun v =>
      let want := goToUpper (SnakeCase v.enum.enumName ++ "_UNSPECIFIED")
      if v.valueName ≠ want then
        [{ message := "The first enum value should be " ++ goQuote want,
           suggestion := want,
           descriptor := Descriptor.enumValue v,
           location := some (Location.descriptorName (Descriptor.enumValue v)) }]
      else [] }

/-- utils.LintFieldPresent: the field of the given name, or a problem when
the message has no such field. -/
def LintFieldPresent (m : MessageDescriptor) (field : String) :
    Except LintErr FieldDescriptor :=
  match m.FindFieldByName field with
  | none =>
      Except.error (NewLintErr
        [{ message := "Message `" ++ m.messageName ++ "` has no `" ++ field ++ "` field.",
           suggestion := "",
           descriptor := Descriptor.message m,
           location := none }])
  | some f => Except.ok f

/-- builder.FieldTypeString().GetType(). -/
def FieldTypeString : ProtoType :=
  ProtoType.string

/-- builder.FieldTypeBool().GetType(). -/
def FieldTypeBool : ProtoType :=
  ProtoType.bool

/-- utils.lintSingularField: a problem unless the field has the wanted type
and is not repeated. -/
def lintSingularField (f : FieldDescriptor) (t : ProtoType) (want : String) :
    Option LintErr :=
  if f.type != t || f.repeated then
    some (NewLintErr
      [{ message := "The `" ++ f.fieldName ++ "` field must be a singular " ++ want ++ ".",
         suggestion := want,
         descriptor := Descriptor.field f,
         location := some (Location.fieldType f) }])
  else none

/-- utils.LintSingularStringField. -/
def LintSingularStringField (f : FieldDescriptor) : Option LintErr :=
  lintSingularField f FieldTypeString "string"

/-- utils.LintSingularBoolField. -/
def LintSingularBoolField (f : FieldDescriptor) : Option LintErr :=
  lintSingularField f FieldTypeBool "bool"

/-- utils.lintHTTPBody's loop over the method's HTTP rules: the first rule
whose body differs from the wanted one produces the error; otherwise nil. -/
def lintHTTPBodyAux (m : MethodDescriptor) (want msg : String) :
    List HTTPRule → Option LintErr
  | [] => none
  | r :: rest =>
      if r.body != want then
        some (NewLintErr
          [{ message := "The `" ++ m.methodName ++ "` method should " ++ msg ++ " HTTP body.",
             suggestion := "",
             descriptor := Descriptor.method m,
             location := some (Location.methodHTTPRule m) }])
      else lintHTTPBodyAux m want msg rest

/-- utils.lintHTTPBody. -/
def lintHTTPBody (m : MethodDescriptor) (want msg : String) : Option LintErr :=
  lintHTTPBodyAux m want msg (GetHTTPRules m)

/-- utils.LintNoHTTPBody. -/
def LintNoHTTPBody (m : MethodDescriptor) : Option LintErr :=
  lintHTTPBody m "" "not have an"

/-- utils.LintWildcardHTTPBody. -/
def LintWildcardHTTPBody (m : MethodDescriptor) : Option LintErr :=
  lintHTTPBody m "*" "use \"*\" as the"

/-- State-passing translation of objectValues.LintField: the Go closure
reads only its argument and refers to no package-level mutable state, so an
ambient state of any type threads through unchanged. -/
def LintFieldThreaded {S : Type} (s : S) (f : FieldDescriptor) :
    Option (List Problem) × S :=
  (objectValues.LintField f, s)

/-- State-passing translation of unspecified.LintEnumValue, as for
`LintFieldThreaded`. -/
def LintEnumValueThreaded {S : Type} (s : S) (v : EnumValueDescriptor) :
    List Problem × S :=
  (unspecified.LintEnumValue v, s)

/-- Heap-aware translation of LintFieldPresent: alongside the result it
returns the message descriptor as the call leaves it; the Go body performs
no assignment through the descriptor pointer. -/
def LintFieldPresentFull (m : MessageDescriptor) (field : String) :
    Except LintErr FieldDescriptor × MessageDescriptor :=
  (LintFieldPresent m field, m)

/-- Heap-aware translation of lintSingularField; the Go body performs no
assignment through the field pointer. -/
def lintSingularFieldFull (f : FieldDescriptor) (t : ProtoType) (want : String) :
    Option LintErr × FieldDescriptor :=
  (lintSingularField f t want, f)

/-- Heap-aware translation of LintSingularStringField. -/
def LintSingularStringFieldFull (f : FieldDescriptor) :
    Option LintErr × FieldDescriptor :=
  (LintSingularStringField f, f)

/-- Heap-aware translation of objectValues.LintField. -/
def objectValuesLintFieldFull (f : FieldDescriptor) :
    Option (List Problem) × FieldDescriptor :=
  (objectValues.LintField f, f)

/-- Heap-aware translation of unspecified.LintEnumValue. -/
def unspecifiedLintEnumValueFull (v : EnumValueDescriptor) :
    List Problem × EnumValueDescriptor :=
  (unspecified.LintEnumValue v, v)

/-- Modelled from the spec: the registry as an ordered association of rule
names to rules (the lint registry is not among the provided sources). -/
abbrev Registry (α : Type) : Type :=
  List (RuleName × α)

/-- Modelled from the spec: exact lookup of a rule by name — the first
binding with the wanted name, in registration order. -/
def Lookup {α : Type} (reg : Registry α) (n : RuleName) : Option α :=
  match reg with
  | [] => none
  | e :: rest => if e.1 = n then some e.2 else Lookup rest n

/-- The registration-time error taxonomy of spec section 7. -/
inductive RegistryError where
  | DuplicateRuleName
  | RegistryFrozen
deriving DecidableEq

/-- Modelled from the spec: Register fails with DuplicateRuleName when a
rule with the same name already exists, and otherwise appends the new rule
in registration order. -/
def Register {α : Type} (reg : Registry α) (n : RuleName) (r : α) :
    Except RegistryError (Registry α) :=
  if (Lookup reg n).isSome then Except.error RegistryError.DuplicateRuleName
  else Except.ok (reg ++ [(n, r)])

/-- The declaration kinds of the spec's data model. -/
inductive DeclKind where
  | file
  | message
  | field
  | enum
  | enumValue
  | service
  | method
deriving DecidableEq

/-- The rule-path token of a suppression directive (spec section 6): a
fully qualified rule name, a namespace-only token, or an omitted path
meaning all rules. -/
inductive RulePath where
  | exactRule (token : String)
  | namespaceOnly (ns : String)
  | allRules
deriving DecidableEq

/-- Modelled from the spec: a parsed suppression directive — a rule path
and whether the required not-precedent justification accompanied it. -/
structure SuppressionDirective where
  path : RulePath
  justified : Bool
deriving DecidableEq

/-- Modelled from the spec: how one rule-path token matches a rule name —
an exact token matches exactly the rule's textual form, a namespace token
matches every rule of that namespace, and the wildcard matches all rules. -/
def pathMatches : RulePath → RuleName → Bool
  | RulePath.exactRule tok, r => tok == r.toStr
  | RulePath.namespaceOnly ns, r => ns == r.nspace
  | RulePath.allRules, _ => true

/-- Modelled from the spec: a directive suppresses a rule only when it is
justified and its path matches the rule's name. -/
def directiveSuppresses (d : SuppressionDirective) (r : RuleName) : Bool :=
  d.justified && pathMatches d.path r

/-- Modelled from the spec: suppression is a simple any-match OR over a
list of visible directives. -/
def matchesChain (ds : List SuppressionDirective) (r : RuleName) : Bool :=
  ds.any (fun d => directiveSuppresses d r)

/-- One node of the declaration tree: kind, name, the suppression
directives parsed from its own leading comments, and its children in
declared order. -/
inductive Decl where
  | node (kind : DeclKind) (declName : String)
      (directives : List SuppressionDirective) (children : List Decl)

/-- The directives attached to a declaration's own comments. -/
def Decl.directives : Decl → List SuppressionDirective
  | Decl.node _ _ ds _ => ds

/-- Modelled from the spec: IsSuppressed for a declaration sitting below
ancestors whose attached directives are `anc` — any justified matching
directive on the declaration or any ancestor suppresses. -/
def IsSuppressed (anc : List SuppressionDirective) (d : Decl) (r : RuleName) :
    Bool :=
  matchesChain (anc ++ d.directives) r

/-- A registered rule as the traversal engine sees it: name, bound
declaration kind, applicability guard and check function (the check's
output is modelled by its problem messages, which the engine tags). -/
structure EngineRule where
  Name : RuleName
  kind : DeclKind
  OnlyIf : Decl → Bool
  Lint : Decl → List String

/-- A problem as aggregated by the traversal engine: the tagging rule
name, the name of the visited declaration and the message. -/
structure EngineProblem where
  ruleName : RuleName
  declName : String
  message : String
deriving DecidableEq

mutual

/-- Modelled from the spec: the traversal engine visits a declaration,
runs every registered rule of the declaration's kind whose OnlyIf guard
holds and which is not suppressed by a directive visible at the
declaration, tags each emitted problem with the rule's name, and recurses
into the children with the enlarged directive chain. `runDecl reg anc d`
is exactly the sub-sequence of `Run`'s output produced for `d` and its
descendants when the ancestors of `d` carry the directives `anc`. -/
def runDecl (reg : List EngineRule) (anc : List SuppressionDirective) :
    Decl → List EngineProblem
  | Decl.node k nm ds cs =>
      (reg.filter (fun r =>
          r.kind == k && r.OnlyIf (Decl.node k nm ds cs)
            && !(matchesChain (anc ++ ds) r.Name))).flatMap
        (fun r => (r.Lint (Decl.node k nm ds cs)).map
          (fun m => { ruleName := r.Name, declName := nm, message := m }))
      ++ runDecls reg (anc ++ ds) cs

/-- The traversal engine over a child list, in declared order. -/
def runDecls (reg : List EngineRule) (anc : List SuppressionDirective) :
    List Decl → List EngineProblem
  | [] => []
  | c :: cs => runDecl reg anc c ++ runDecls reg anc cs

end

/-- Modelled from the spec: Run walks the whole tree from the root with no
ancestor directives. -/
def Run (root : Decl) (reg : List EngineRule) : List EngineProblem :=
  runDecl reg [] root

/-- A sample message type for concrete instantiations. -/
def pageType : MessageType :=
  { typeName := "Page", fullyQualifiedName := "library.Page" }

/-- A map-entry value field whose value type is a message. -/
def pageValueField : ValueField :=
  { messageType := some pageType }

/-- A map field with message-typed values in a non-common-proto file. -/
def contentsField : FieldDescriptor :=
  { fieldName := "contents", type := ProtoType.message, repeated := false,
    messageType := none, mapValueType := some pageValueField,
    fieldBehavior := [], fileIsCommonProto := false }

/-- The same field marked OUTPUT_ONLY. -/
def outputOnlyContentsField : FieldDescriptor :=
  { contentsField with fieldBehavior := ["OUTPUT_ONLY"] }

/-- A sample enum. -/
def formatEnum : EnumDescr :=
  { enumName := "Format" }

/-- A conforming first enum value of `formatEnum`. -/
def formatZeroValue : EnumValueDescriptor :=
  { valueName := "FORMAT_UNSPECIFIED", number := 0, enum := formatEnum }

/-- A non-conforming first enum value of `formatEnum`. -/
def badFormatZeroValue : EnumValueDescriptor :=
  { valueName := "FORMAT_UNKNOWN", number := 0, enum := formatEnum }

/-- A method with two HTTP rules, both with non-empty bodies. -/
def getBookMethod : MethodDescriptor :=
  { methodName := "GetBook",
    httpRules := [{ body := "x", method := "get" }, { body := "y", method := "get" }] }

/-- The observable outcome of the object-values rule on a field: how many
problems the guarded invocation produces (zero also when the rule does not
apply). -/
def objectValuesProblemCount (f : FieldDescriptor) : Nat :=
  ((runFieldRule objectValues false f).getD []).length

/-- A justified directive naming exactly core::25146::object-values. -/
def suppressDirective : SuppressionDirective :=
  { path := RulePath.exactRule "core::25146::object-values", justified := true }

/-- An engine-level rule with the object-values identity, applicable to
every field. -/
def fieldRuleEngine : EngineRule :=
  { Name := NewRuleName 25146 "object-values", kind := DeclKind.field,
    OnlyIf := fun _ => true,
    Lint := fun _ => ["Avoid using objects as map values."] }

/-- A field declaration carrying the suppressing directive. -/
def suppressedFieldDecl : Decl :=
  Decl.node DeclKind.field "contents" [suppressDirective] []

/-- Claim C1: on a map field with a message-typed value type, in a
non-common-proto file and with no suppression in effect, the
core::25146::object-values rule (OnlyIf, then LintField) produces exactly
one Problem whose descriptor is the field itself and whose location is the
field's type span. -/
theorem objectValues_fires_once_on_map_message_value (f : FieldDescriptor)
    (vt : ValueField) (mt : MessageType)
    (hcommon : f.fileIsCommonProto = false)
    (hmap : f.mapValueType = some vt)
    (hmsg : vt.messageType = some mt) :
    runFieldRule objectValues false f =
      some [{ message := "Avoid using objects as map values.",
              suggestion := "",
              descriptor := Descriptor.field f,
              location := some (Location.fieldType f) }] := by
  simp [runFieldRule, objectValues, hcommon, hmap, hmsg]

/-- Witness for C1: the concrete map field `contentsField`. -/
theorem objectValues_fires_once_on_map_message_value_witness :
    runFieldRule objectValues false contentsField =
      some [{ message := "Avoid using objects as map values.",
              suggestion := "",
              descriptor := Descriptor.field contentsField,
              location := some (Location.fieldType contentsField) }] :=
  objectValues_fires_once_on_map_message_value contentsField pageValueField pageType
    rfl rfl rfl

/-- Claim C2: the outcome of the object-values rule depends only on the
common-proto status of the field's file and on the field's map value type —
changing the field-behavior annotations never changes how many problems the
rule produces — and in particular a field marked OUTPUT_ONLY whose map
value type is a message, in a non-common-proto file, still draws the
Problem (the in-repo rule documentation claims output-only fields are
excluded, but the check never consults field behavior). -/
theorem objectValues_ignores_fieldBehavior (f : FieldDescriptor) (b : List String) :
    objectValuesProblemCount { f with fieldBehavior := b } = objectValuesProblemCount f
    ∧ ("OUTPUT_ONLY" ∈ f.fieldBehavior →
        ∀ (vt : ValueField) (mt : MessageType),
          f.fileIsCommonProto = false → f.mapValueType = some vt →
          vt.messageType = some mt →
          runFieldRule objectValues false f =
            some [{ message := "Avoid using objects as map values.",
                    suggestion := "",
                    descriptor := Descriptor.field f,
                    location := some (Location.fieldType f) }]) := by
  constructor
  · cases f with
    | mk nm t rep mty mvt fb common =>
        simp only [objectValuesProblemCount, runFieldRule, objectValues]
        cases common <;> cases mvt <;> simp
        case false.some vt => cases vt.messageType <;> simp
  · intro _ vt mt h1 h2 h3
    simp [runFieldRule, objectValues, h1, h2, h3]

/-- Witness for C2: the OUTPUT_ONLY-marked map field
`outputOnlyContentsField` still draws exactly the Problem. -/
theorem objectValues_ignores_fieldBehavior_witness :
    runFieldRule objectValues false outputOnlyContentsField =
      some [{ message := "Avoid using objects as map values.",
              suggestion := "",
              descriptor := Descriptor.field outputOnlyContentsField,
              location := some (Location.fieldType outputOnlyContentsField) }] :=
  (objectValues_ignores_fieldBehavior outputOnlyContentsField []).2
    (by decide) pageValueField pageType rfl rfl rfl

/-- Claim C3: whenever the object-values OnlyIf guard accepts a field, the
LintField body is well-defined — f.GetMapValueType() is non-nil, so the
GetMessageType access never dereferences a nil map value type. -/
theorem objectValues_lintField_total_under_onlyIf (f : FieldDescriptor)
    (h : objectValues.OnlyIf f = true) :
    (objectValues.LintField f).isSome = true := by
  simp only [objectValues, Bool.and_eq_true] at h
  obtain ⟨-, h2⟩ := h
  cases hm : f.mapValueType with
  | none => rw [hm] at h2; simp at h2
  | some vt =>
      simp only [objectValues, hm]
      split <;> rfl

/-- Witness for C3: the guard accepts `contentsField` and the check body is
defined there. -/
theorem objectValues_lintField_total_under_onlyIf_witness :
    objectValues.OnlyIf contentsField = true
    ∧ (objectValues.LintField contentsField).isSome = true :=
  ⟨rfl, objectValues_lintField_total_under_onlyIf contentsField rfl⟩

/-- Claim C4: the aip0126 unspecified rule applies exactly to enum values
with numeric value 0; its check produces exactly one Problem — with the
wanted name as Suggestion, the value as descriptor and the value's name
span as location — when the value's name differs from the upper-cased
snake-case enum name suffixed with "_UNSPECIFIED", and the empty sequence
when the name conforms. -/
theorem unspecified_first_value_naming (v : EnumValueDescriptor) :
    (unspecified.OnlyIf v = true ↔ v.number = 0)
    ∧ (v.valueName = goToUpper (SnakeCase v.enum.enumName ++ "_UNSPECIFIED") →
        unspecified.LintEnumValue v = [])
    ∧ (v.valueName ≠ goToUpper (SnakeCase v.enum.enumName ++ "_UNSPECIFIED") →
        unspecified.LintEnumValue v =
          [{ message := "The first enum value should be "
               ++ goQuote (goToUpper (SnakeCase v.enum.enumName ++ "_UNSPECIFIED")),
             suggestion := goToUpper (SnakeCase v.enum.enumName ++ "_UNSPECIFIED"),
             descriptor := Descriptor.enumValue v,
             location := some (Location.descriptorName (Descriptor.enumValue v)) }]) := by
  refine ⟨?_, ?_, ?_⟩
  · simp [unspecified, isFirstEnumValue]
  · intro h
    simp [unspecified, h]
  · intro h
    simp [unspecified, h]

/-- Witness for C4: a conforming and a non-conforming first value of the
enum `Format`. -/
theorem unspecified_first_value_naming_witness :
    unspecified.LintEnumValue formatZeroValue = []
    ∧ (unspecified.LintEnumValue badFormatZeroValue).length = 1 :=
  ⟨(unspecified_first_value_naming formatZeroValue).2.1 (by decide),
   by rw [(unspecified_first_value_naming badFormatZeroValue).2.2 (by decide)]; rfl⟩

/-- Claim C5: the textual form of a RuleName joins namespace, numeric id
and short name with the fixed separator "::"; NewRuleName(25146,
"object-values") renders as core::25146::object-values, and that exact
string — and no other exact-name token — is the suppression-directive key
matching the rule. -/
theorem ruleName_textual_form :
    (NewRuleName 25146 "object-values").toStr = "core::25146::object-values"
    ∧ pathMatches (RulePath.exactRule "core::25146::object-values")
        (NewRuleName 25146 "object-values") = true
    ∧ ∀ tok : String,
        pathMatches (RulePath.exactRule tok) (NewRuleName 25146 "object-values") = true →
        tok = "core::25146::object-values" := by
  refine ⟨by decide, by decide, ?_⟩
  intro tok h
  simp only [pathMatches, beq_iff_eq] at h
  rw [h]
  decide

/-- Witness for C5: the exact key applied to itself. -/
theorem ruleName_textual_form_witness :
    "core::25146::object-values" = "core::25146::object-values" :=
  ruleName_textual_form.2.2 "core::25146::object-values" (by decide)

/-- Claim C6: the check functions are pure functions of the declaration
they receive — running the same check twice in sequence, with any ambient
state threaded through, yields identical Problem sequences and leaves the
state untouched. -/
theorem checks_are_pure (S : Type) (s : S) (f : FieldDescriptor)
    (v : EnumValueDescriptor) :
    (LintFieldThreaded s f).1 = (LintFieldThreaded (LintFieldThreaded s f).2 f).1
    ∧ (LintFieldThreaded (LintFieldThreaded s f).2 f).2 = s
    ∧ (LintEnumValueThreaded s v).1
        = (LintEnumValueThreaded (LintEnumValueThreaded s v).2 v).1
    ∧ (LintEnumValueThreaded (LintEnumValueThreaded s v).2 v).2 = s :=
  ⟨rfl, rfl, rfl, rfl⟩

/-- Helper for C7: over any rule list, the body-check loop returns nil
exactly when every rule's body is the wanted one. -/
theorem lintHTTPBodyAux_none_iff (m : MethodDescriptor) (want msg : String) :
    ∀ rs : List HTTPRule,
      (lintHTTPBodyAux m want msg rs = none ↔ ∀ r ∈ rs, r.body = want) := by
  intro rs
  induction rs with
  | nil => simp [lintHTTPBodyAux]
  | cons r rest ih =>
      by_cases h : r.body = want
      · simp [lintHTTPBodyAux, h, ih]
      · simp [lintHTTPBodyAux, h]

/-- Helper for C7: whatever rule list the loop fails on, it returns the one
error built from a single problem about the method. -/
theorem lintHTTPBodyAux_some_eq (m : MethodDescriptor) (want msg : String) :
    ∀ (rs : List HTTPRule) (e : LintErr), lintHTTPBodyAux m want msg rs = some e →
      e = NewLintErr
        [{ message := "The `" ++ m.methodName ++ "` method should " ++ msg ++ " HTTP body.",
           suggestion := "",
           descriptor := Descriptor.method m,
           location := some (Location.methodHTTPRule m) }] := by
  intro rs
  induction rs with
  | nil => intro e h; simp [lintHTTPBodyAux] at h
  | cons r rest ih =>
      intro e h
      by_cases hb : r.body = want
      · rw [lintHTTPBodyAux] at h
        simp only [hb, bne_self_eq_false, if_neg] at h
        exact ih e h
      · rw [lintHTTPBodyAux] at h
        simp only [if_pos (bne_iff_ne.mpr hb)] at h
        exact (Option.some.inj h).symm

/-- Claim C7: lintHTTPBody (hence LintNoHTTPBody and LintWildcardHTTPBody)
returns nil exactly when every HTTP rule of the method has the wanted body,
and otherwise an error carrying exactly one Problem, produced at the first
non-conforming rule — never one problem per non-conforming rule. -/
theorem lintHTTPBody_single_problem (m : MethodDescriptor) (want msg : String) :
    (lintHTTPBody m want msg = none ↔ ∀ r ∈ GetHTTPRules m, r.body = want)
    ∧ (∀ e : LintErr, lintHTTPBody m want msg = some e →
        e = NewLintErr
          [{ message := "The `" ++ m.methodName ++ "` method should " ++ msg ++ " HTTP body.",
             suggestion := "",
             descriptor := Descriptor.method m,
             location := some (Location.methodHTTPRule m) }]
        ∧ e.problems.length = 1)
    ∧ LintNoHTTPBody m = lintHTTPBody m "" "not have an"
    ∧ LintWildcardHTTPBody m = lintHTTPBody m "*" "use \"*\" as the" := by
  refine ⟨lintHTTPBodyAux_none_iff m want msg (GetHTTPRules m), ?_, rfl, rfl⟩
  intro e h
  have he := lintHTTPBodyAux_some_eq m want msg (GetHTTPRules m) e h
  exact ⟨he, by rw [he]; rfl⟩

/-- Witness for C7: `getBookMethod`, whose two HTTP rules both have
non-empty bodies, draws one single problem from LintNoHTTPBody. -/
theorem lintHTTPBody_single_problem_witness :
    (NewLintErr
      [{ message := "The `GetBook` method should not have an HTTP body.",
         suggestion := "",
         descriptor := Descriptor.method getBookMethod,
         location := some (Location.methodHTTPRule getBookMethod) }]).problems.length = 1 :=
  ((lintHTTPBody_single_problem getBookMethod "" "not have an").2.1 _ rfl).2

/-- Claim C8: no lint check mutates the declaration it receives — the
heap-aware translations of LintFieldPresent, lintSingularField,
LintSingularStringField, the object-values LintField and the unspecified
LintEnumValue all return their descriptor argument unchanged; the only
output is the returned problems. -/
theorem lints_do_not_mutate (m : MessageDescriptor) (field : String)
    (f : FieldDescriptor) (t : ProtoType) (want : String)
    (v : EnumValueDescriptor) :
    (LintFieldPresentFull m field).2 = m
    ∧ (lintSingularFieldFull f t want).2 = f
    ∧ (LintSingularStringFieldFull f).2 = f
    ∧ (objectValuesLintFieldFull f).2 = f
    ∧ (unspecifiedLintEnumValueFull v).2 = v :=
  ⟨rfl, rfl, rfl, rfl, rfl⟩

/-- Helper for C9: appending a fresh binding makes it the result of exact
lookup, when the name was previously absent. -/
theorem Lookup_append_single {α : Type} (reg : Registry α) (n : RuleName) (r : α)
    (h : Lookup reg n = none) : Lookup (reg ++ [(n, r)]) n = some r := by
  induction reg with
  | nil => simp [Lookup]
  | cons e reg ih =>
      by_cases hbe : e.1 = n
      · simp [Lookup, hbe] at h
      · have h' : Lookup reg n = none := by
          simpa [Lookup, hbe] using h
        simpa [Lookup, hbe] using ih h'

/-- Claim C9: registering a fresh name succeeds and appends the rule; a
second registration under the same name fails with DuplicateRuleName, and
the registry from the first registration still maps the name to the first
rule — its contents are unchanged by the failed call. -/
theorem register_duplicate_keeps_first {α : Type} (reg : Registry α)
    (n : RuleName) (r₁ r₂ : α) (h : Lookup reg n = none) :
    Register reg n r₁ = Except.ok (reg ++ [(n, r₁)])
    ∧ Register (reg ++ [(n, r₁)]) n r₂ = Except.error RegistryError.DuplicateRuleName
    ∧ Lookup (reg ++ [(n, r₁)]) n = some r₁ := by
  have hl := Lookup_append_single reg n r₁ h
  refine ⟨?_, ?_, hl⟩
  · simp [Register, h]
  · simp [Register, hl]

/-- Witness for C9: registering the object-values name twice into an
initially empty registry of numbered rules. -/
theorem register_duplicate_keeps_first_witness :
    Register ([] : Registry Nat) (NewRuleName 25146 "object-values") 1
        = Except.ok [(NewRuleName 25146 "object-values", 1)]
    ∧ Register [(NewRuleName 25146 "object-values", 1)] (NewRuleName 25146 "object-values") 2
        = Except.error RegistryError.DuplicateRuleName
    ∧ Lookup [(NewRuleName 25146 "object-values", 1)] (NewRuleName 25146 "object-values")
        = some 1 :=
  register_duplicate_keeps_first [] (NewRuleName 25146 "object-values") 1 2 rfl

/-- Helper for C10: the any-match OR over directives is monotone under
extending the directive chain on the right. -/
theorem matchesChain_append_left (ds es : List SuppressionDirective)
    (r : RuleName) (h : matchesChain ds r = true) :
    matchesChain (ds ++ es) r = true := by
  simp only [matchesChain, List.any_append, Bool.or_eq_true]
  exact Or.inl h

mutual

/-- Helper for C10, by mutual induction over the tree: once the directives
visible at a declaration suppress a rule name, no problem in the subtree's
output carries that name. -/
theorem runDecl_suppressed (reg : List EngineRule) (rn : RuleName) :
    ∀ (d : Decl) (anc : List SuppressionDirective),
      matchesChain (anc ++ d.directives) rn = true →
      (runDecl reg anc d).all (fun p => p.ruleName != rn) = true
  | Decl.node k nm ds cs, anc, h => by
      have hvis : matchesChain (anc ++ ds) rn = true := h
      rw [runDecl, List.all_append, Bool.and_eq_true]
      constructor
      · rw [List.all_eq_true]
        intro p hp
        rw [List.mem_flatMap] at hp
        obtain ⟨r, hr, hpm⟩ := hp
        rw [List.mem_filter] at hr
        obtain ⟨-, hflt⟩ := hr
        rw [List.mem_map] at hpm
        obtain ⟨msg, -, hpeq⟩ := hpm
        subst hpeq
        simp only [bne_iff_ne, ne_eq]
        intro hEq
        rw [Bool.and_eq_true, Bool.and_eq_true] at hflt
        have hnot := hflt.2
        rw [hEq, hvis] at hnot
        simp at hnot
      · exact runDecls_suppressed reg rn cs (anc ++ ds) hvis

/-- Helper for C10: the same, over a list of sibling subtrees whose common
visible chain already suppresses the rule name. -/
theorem runDecls_suppressed (reg : List EngineRule) (rn : RuleName) :
    ∀ (cs : List Decl) (anc : List SuppressionDirective),
      matchesChain anc rn = true →
      (runDecls reg anc cs).all (fun p => p.ruleName != rn) = true
  | [], _, _ => by rw [runDecls]; rfl
  | c :: cs, anc, h => by
      rw [runDecls, List.all_append, Bool.and_eq_true]
      refine ⟨?_, runDecls_suppressed reg rn cs anc h⟩
      cases c with
      | node k nm ds cs2 =>
          exact runDecl_suppressed reg rn (Decl.node k nm ds cs2) anc
            (matchesChain_append_left anc ds rn h)

end

/-- Claim C10 (suppression monotonicity): for every registry containing a
rule r, if r is suppressed at a declaration d (a justified directive on d
or on an ancestor matches r's name), then the traversal output for d and
all its descendants — `runDecl reg anc d`, which is exactly the
sub-sequence of `Run`'s output produced for that subtree, and all of
`Run d reg` when d is the root — contains no problem tagged r.Name. -/
theorem suppression_monotonic (reg : List EngineRule) (r : EngineRule)
    (d : Decl) (anc : List SuppressionDirective)
    (_hmem : r ∈ reg) (hsup : IsSuppressed anc d r.Name = true) :
    (runDecl reg anc d).all (fun p => p.ruleName != r.Name) = true :=
  runDecl_suppressed reg r.Name d anc hsup

/-- Witness for C10: a single-rule registry and a field declaration that
carries a justified directive naming the rule; the whole run stays silent
for that rule. -/
theorem suppression_monotonic_witness :
    (Run suppressedFieldDecl [fieldRuleEngine]).all
      (fun p => p.ruleName != fieldRuleEngine.Name) = true :=
  suppression_monotonic [fieldRuleEngine] fieldRuleEngine suppressedFieldDecl []
    (List.Mem.head _) (by decide)
